import Mathlib

/-!
Verification development for the reflective query dispatcher of the
isc-iknow-irispy notebook (`iknow_query` and its macro resolver in
`src/src/python/IRIS-NLP.ipynb`).

Python strings are modelled as `List Char` (`Str`), so that every string
operation used by the code (single-character `split`, `upper`, slicing)
is a structural Lean function that the kernel can evaluate.  Fallible
Python operations (indexing that can raise `IndexError`, the remote call)
return `Except Err _`.  The external IRIS runtime (metadata records, the
sparse output global written by the remote call, the `%IKPublic` include
file scanned by the macro resolver) is an explicit `Env` record, and the
observable side effects of one dispatch (the remote invocation with its
final positional vector, and the `kill` that purges the output global)
are collected in an ordered trace.
-/

/-- Python strings, modelled as lists of characters. -/
abbrev Str := List Char

/-- Values flowing through the dispatcher: strings, integers (the decoded
`$list` fields can be numeric) and Python `None`. -/
inductive Value where
  | str : Str → Value
  | int : Int → Value
  | none : Value
deriving DecidableEq, Repr

/-- Python exceptions that the embedded code can raise. -/
inductive Err where
  | indexError
  | remoteCallFailed
deriving DecidableEq, Repr

instance {ε α : Type} [DecidableEq ε] [DecidableEq α] : DecidableEq (Except ε α)
  | .ok a, .ok b =>
    if h : a = b then .isTrue (by rw [h]) else .isFalse (fun he => h (by cases he; rfl))
  | .ok _, .error _ => .isFalse (fun he => by cases he)
  | .error _, .ok _ => .isFalse (fun he => by cases he)
  | .error a, .error b =>
    if h : a = b then .isTrue (by rw [h]) else .isFalse (fun he => h (by cases he; rfl))

/-- Python list/string indexing `l[i]`: raises `IndexError` out of range. -/
def pyIdx {α : Type} (l : List α) (i : Nat) : Except Err α :=
  match l.get? i with
  | some a => Except.ok a
  | Option.none => Except.error Err.indexError

/-- Python `s.split(sep)` for a one-character separator: keeps empty
pieces and yields `[s]` when the separator does not occur (on the empty
string it yields `[""]`, never the empty list). -/
def pySplit (sep : Char) : Str → List Str
  | [] => [[]]
  | c :: rest =>
    match pySplit sep rest with
    | [] => []
    | h :: t => if c = sep then [] :: h :: t else (c :: h) :: t

/-- Python `s.upper()` (the parameter names here are ASCII). -/
def pyUpper (s : Str) : Str := s.map Char.toUpper

/-- The external runtime state one dispatch runs against: the two
metadata strings for the chosen (api, method) pair, whether the remote
call succeeds, the rows it writes to the output global (already in
ascending subscript order, each decoded into its `$list` fields), and
the lines of the `%IKPublic` include file in subscript order. -/
structure Env where
  schemaDefault : Str
  formalSpec : Str
  remoteOk : Bool
  channelEntries : List (List Value)
  macroLines : List Str
deriving DecidableEq

/-- Observable side effects of one dispatch, in order: the remote
invocation (`irispy.classMethodVoid`, carrying the bound positional
vector) and the purge of the output global (`irispy.kill`). -/
inductive Effect where
  | remoteCall : List Value → Effect
  | kill : Effect
deriving DecidableEq, Repr

/-- `return_cols`: `list(map(lambda x: x.split(':')[0], raw))` where
`raw = Default.split(',')`.  Taking index 0 of a Python `split` result
never raises (`split` never returns an empty list), so this is total;
`headD` is that always-defined first element. -/
def resolveReturnCols (schemaDefault : Str) : List Str :=
  (pySplit ',' schemaDefault).map (fun x => (pySplit ':' x).headD [])

/-- One step of `return_types`: `x.split(':')[1]`, which raises
`IndexError` when the entry has no `:` separator. -/
def colType (x : Str) : Except Err Str := pyIdx (pySplit ':' x) 1

/-- `return_types`: `list(map(lambda x: x.split(':')[1], raw))`;
the first entry without a `:` raises `IndexError`. -/
def colTypes : List Str → Except Err (List Str)
  | [] => Except.ok []
  | x :: rest => do
    let t ← colType x
    let ts ← colTypes rest
    pure (t :: ts)

/-- `return_types` over the raw metadata string. -/
def resolveReturnTypes (schemaDefault : Str) : Except Err (List Str) :=
  colTypes (pySplit ',' schemaDefault)

/-- Python dict assignment `d[k] = v`: replaces in place when the key
exists (keeping its position), else appends. -/
def dictInsert (d : List (Str × Value)) (k : Str) (v : Value) : List (Str × Value) :=
  if d.any (fun kv => kv.1 = k) then d.map (fun kv => if kv.1 = k then (k, v) else kv)
  else d ++ [(k, v)]

/-- Python `k in d` / `d[k]` combined: the value stored at key `k`. -/
def dictFind (d : List (Str × Value)) (k : Str) : Option Value :=
  (d.find? (fun kv => kv.1 = k)).map Prod.snd

/-- The `kwupper` dict: every caller-supplied keyword argument except
`outGlo`, keyed by its upper-cased name (later duplicates overwrite, as
in Python dict assignment).  The merged `{'outGlo': '^result', **kwargs}`
entry for `outGlo` is skipped by the loop, so only the caller's other
keywords survive. -/
def buildKwupper (kwargs : List (Str × Value)) : List (Str × Value) :=
  kwargs.foldl
    (fun acc kv => if kv.1 = "outGlo".toList then acc else dictInsert acc (pyUpper kv.1) kv.2) []

/-- `macro[0:3] == '$$$'` then `macro = macro[3:]`: strip the symbolic
prefix (Python slicing is total on short strings, as is `List.take`). -/
def macroStrip (m : Str) : Str :=
  if m.take 3 = "$$$".toList then m.drop 3 else m

/-- The scan loop of `iknow_macro` over the lines of `%IKPublic.INC`:
split each line on a space; when it has more than one field and the
second equals the queried name, return field 2 — an access that raises
`IndexError` when the matching line has exactly two fields, since the
guard only checks `len(raw_line) > 1`.  Exhaustion returns `None`. -/
def macroScanGo (m : Str) : List Str → Except Err (Option Str)
  | [] => Except.ok Option.none
  | line :: rest =>
    let raw_line := pySplit ' ' line
    if 1 < raw_line.length ∧ raw_line.getD 1 [] = m then
      (pyIdx raw_line 2).map Option.some
    else macroScanGo m rest

/-- `iknow_macro`: strip the `$$$` prefix, then linearly scan the macro
table; `Except.ok Option.none` is the scan-exhausted result. -/
def macroResolve (m : Str) (macroLines : List Str) : Except Err (Option Str) :=
  macroScanGo (macroStrip m) macroLines

/-- Appending `iknow_macro`'s return value to `full_args`: Python `None`
becomes `Value.none`, a found value is a string. -/
def optToValue : Option Str → Value
  | Option.none => Value.none
  | Option.some s => Value.str s

/-- Stripping the by-reference / variadic marker of one FormalSpec token:
`argument[0]` (raising `IndexError` on an empty token), dropping it when
it is `&` or `*`. -/
def stripMark (token : Str) : Except Err Str := do
  let c0 ← pyIdx token 0
  pure (if c0 = '&' ∨ c0 = '*' then token.drop 1 else token)

/-- `argument_name = argument[0].split(':')[0].upper()` of a stripped
token (both index-0 accesses are on `split` results, hence total). -/
def paramNameOf (t : Str) : Str :=
  pyUpper ((pySplit ':' ((pySplit '=' t).headD [])).headD [])

/-- Binding one FormalSpec token at enumeration index `i` (the code only
reaches this for `i ≥ 2`): named argument first, then the caller's
positional argument at slot `i - 2`, then the declared default — the
empty-string sentinel binds `""`, a `$$$` token goes through the macro
resolver (whose `None` is bound as-is), any other literal is bound
verbatim — and finally Python `None` when nothing applies. -/
def bindArgument (kwupper : List (Str × Value)) (args : List Value)
    (macroLines : List Str) (i : Nat) (token : Str) : Except Err Value := do
  let t ← stripMark token
  let argument := pySplit '=' t
  match dictFind kwupper (paramNameOf t) with
  | Option.some v => pure v
  | Option.none =>
    if args.length > i - 2 then
      pyIdx args (i - 2)
    else if argument.length > 1 then do
      let dflt ← pyIdx argument 1
      if dflt = "\"\"".toList then pure (Value.str [])
      else if dflt.take 3 = "$$$".toList then
        (macroResolve dflt macroLines).map optToValue
      else pure (Value.str dflt)
    else pure Value.none

/-- The `for i, argument in enumerate(raw)` loop body from index `i`
over the remaining tokens, appending one bound value per token; a raised
exception abandons the vector. -/
def bindAllGo (kwupper : List (Str × Value)) (args : List Value)
    (macroLines : List Str) : Nat → List Str → Except Err (List Value)
  | _, [] => Except.ok []
  | i, token :: rest => do
    let v ← bindArgument kwupper args macroLines i token
    let vs ← bindAllGo kwupper args macroLines (i + 1) rest
    pure (v :: vs)

/-- `full_args`: the loop over `FormalSpec.split(',')` with the first two
tokens (`&result` and `domainId`) skipped by the `if i < 2: continue`
guard. -/
def bindAll (kwupper : List (Str × Value)) (args : List Value)
    (macroLines : List Str) (raw : List Str) : Except Err (List Value) :=
  bindAllGo kwupper args macroLines 2 (raw.drop 2)

/-- External `iris.IRISList.get(idx)` (1-based): the documented library
behaviour returns Python `None` when no element exists at the index, so
a payload shorter than the schema yields `None` fields rather than an
exception. -/
def irisListGet (fields : List Value) (idx : Nat) : Value :=
  (fields.get? (idx - 1)).getD Value.none

/-- Python dict update used by the row loop (`row[col] = ...`). -/
def rowInsert (row : List (Str × Value)) (k : Str) (v : Value) : List (Str × Value) :=
  if row.any (fun kv => kv.1 = k) then row.map (fun kv => if kv.1 = k then (k, v) else kv)
  else row ++ [(k, v)]

/-- The `for i, col in enumerate(return_cols): row[col] = raw_row.get(i+1)`
loop, from enumeration index `i`. -/
def buildRowGo (fields : List Value) (row : List (Str × Value)) :
    Nat → List Str → List (Str × Value)
  | _, [] => row
  | i, col :: rest => buildRowGo fields (rowInsert row col (irisListGet fields (i + 1))) (i + 1) rest

/-- One materialised row: zip every resolved column name against the
1-based `$list` field of the payload at its index. -/
def buildRow (cols : List Str) (fields : List Value) : List (Str × Value) :=
  buildRowGo fields [] 0 cols

/-- `iknow_query`: resolve the result schema (`return_cols`, then
`return_types` — an entry without `:` raises here, before anything
else), build `kwupper`, bind the positional vector from `FormalSpec`,
invoke the remote method, drain the output global in ascending
subscript order into rows, and kill the global.  The second component
is the ordered effect trace; note that the `kill` is a plain trailing
statement in the source, not a `finally`, so it only runs on the
normal path. -/
def iknow_query (env : Env) (args : List Value) (kwargs : List (Str × Value)) :
    Except Err (List (List (Str × Value))) × List Effect :=
  let return_cols := resolveReturnCols env.schemaDefault
  match resolveReturnTypes env.schemaDefault with
  | Except.error e => (Except.error e, [])
  | Except.ok _return_types =>
    match bindAll (buildKwupper kwargs) args env.macroLines (pySplit ',' env.formalSpec) with
    | Except.error e => (Except.error e, [])
    | Except.ok full_args =>
      if env.remoteOk then
        (Except.ok (env.channelEntries.map (buildRow return_cols)),
         [Effect.remoteCall full_args, Effect.kill])
      else
        (Except.error Err.remoteCallFailed, [Effect.remoteCall full_args])

/-- Specification view of the row loop used in proofs: the association
list pairing each column (from enumeration index `i` on) with the
1-based payload field at its index.  `buildRow` agrees with it whenever
the column names are pairwise distinct. -/
def rowSpecGo (fields : List Value) : Nat → List Str → List (Str × Value)
  | _, [] => []
  | i, c :: rest => (c, irisListGet fields (i + 1)) :: rowSpecGo fields (i + 1) rest

/-- The declared (upper-cased) parameter name of the FormalSpec token at
index `j`, or `Option.none` when processing that token would raise
(empty token). -/
def nameAt (raw : List Str) (j : Nat) : Option Str :=
  match stripMark (raw.getD j []) with
  | Except.ok t => some (paramNameOf t)
  | Except.error _ => Option.none

/-! ## Basic lemmas about the embedded operations -/

theorem exceptBind_ok {α β : Type} (a : α) (f : α → Except Err β) :
    (Except.ok a >>= f) = f a := rfl

theorem exceptBind_error {α β : Type} (e : Err) (f : α → Except Err β) :
    ((Except.error e : Except Err α) >>= f) = Except.error e := rfl

theorem pyIdx_ok {α : Type} {l : List α} {i : Nat} {a : α} (h : l.get? i = some a) :
    pyIdx l i = Except.ok a := by
  unfold pyIdx; rw [h]

theorem pyIdx_error_eq {α : Type} {l : List α} {i : Nat} {e : Err}
    (h : pyIdx l i = Except.error e) : e = Err.indexError := by
  unfold pyIdx at h
  cases hg : l.get? i with
  | none => rw [hg] at h; exact (Except.error.inj h).symm
  | some a => rw [hg] at h; cases h

theorem colTypes_error_of_mem {l : List Str} {x : Str} (hx : x ∈ l)
    (h : colType x = Except.error Err.indexError) :
    colTypes l = Except.error Err.indexError := by
  induction l with
  | nil => cases hx
  | cons y rest ih =>
    cases hy : colType y with
    | error e =>
      have he : e = Err.indexError := pyIdx_error_eq (h := hy)
      subst he
      simp [colTypes, hy, exceptBind_error]
    | ok ty =>
      rcases List.mem_cons.mp hx with rfl | hxr
      · rw [h] at hy; cases hy
      · simp [colTypes, hy, ih hxr, exceptBind_ok, exceptBind_error]

/-- C10: a result-schema entry without a `:` separator makes the declared-type
extraction raise `IndexError`, so the dispatch fails before the remote method
is invoked (the effect trace is empty), even though the extracted type list is
never used for the output rows. -/
theorem missing_colon_raises_before_invoke (env : Env) (args : List Value)
    (kwargs : List (Str × Value))
    (h : ∃ x ∈ pySplit ',' env.schemaDefault, (pySplit ':' x).get? 1 = Option.none) :
    iknow_query env args kwargs = (Except.error Err.indexError, []) := by
  obtain ⟨x, hmem, hx⟩ := h
  have hct : colType x = Except.error Err.indexError := by
    unfold colType pyIdx; rw [hx]
  have hT : resolveReturnTypes env.schemaDefault = Except.error Err.indexError :=
    colTypes_error_of_mem hmem hct
  simp only [iknow_query, hT]

theorem missing_colon_raises_before_invoke_witness :
    iknow_query ⟨"a".toList, "r,d".toList, true, [], []⟩ [] [] =
      (Except.error Err.indexError, []) :=
  missing_colon_raises_before_invoke _ _ _ (by decide)

theorem macroScanGo_total (m : Str) :
    ∀ lines : List Str,
      (∀ line ∈ lines, (pySplit ' ' line).getD 1 [] = m →
        1 < (pySplit ' ' line).length → 3 ≤ (pySplit ' ' line).length) →
      ∃ r, macroScanGo m lines = Except.ok r := by
  intro lines
  induction lines with
  | nil => exact fun _ => ⟨Option.none, rfl⟩
  | cons line rest ih =>
    intro h
    by_cases hc : 1 < (pySplit ' ' line).length ∧ (pySplit ' ' line).getD 1 [] = m
    · have h3 : 3 ≤ (pySplit ' ' line).length :=
        h line (List.mem_cons_self _ _) hc.2 hc.1
      have hg : ∃ a, (pySplit ' ' line).get? 2 = some a := by
        cases hgg : (pySplit ' ' line).get? 2 with
        | none => exact absurd (List.get?_eq_none.mp hgg) (by omega)
        | some a => exact ⟨a, rfl⟩
      obtain ⟨a, ha⟩ := hg
      refine ⟨Option.some a, ?_⟩
      simp only [macroScanGo, if_pos hc, pyIdx_ok ha]
      rfl
    · obtain ⟨r, hr⟩ := ih (fun l hl => h l (List.mem_cons_of_mem _ hl))
      exact ⟨r, by simp only [macroScanGo, if_neg hc]; exact hr⟩

/-- C9: the macro resolver is total only when every macro-table line whose
second whitespace field equals the (stripped) queried name has at least three
fields; a matching two-field line makes the lookup raise `IndexError`, since
the guard only checks that the line has more than one field. -/
theorem macro_lookup_conditional_totality :
    (∀ (mac : Str) (lines : List Str),
        (∀ line ∈ lines, (pySplit ' ' line).getD 1 [] = macroStrip mac →
          1 < (pySplit ' ' line).length → 3 ≤ (pySplit ' ' line).length) →
        ∃ r, macroResolve mac lines = Except.ok r) ∧
      macroResolve "$$$FOO".toList ["x FOO".toList] = Except.error Err.indexError := by
  constructor
  · intro mac lines h
    exact macroScanGo_total (macroStrip mac) lines h
  · decide

theorem macro_lookup_conditional_totality_witness :
    (∃ r, macroResolve "$$$B".toList ["x B c".toList] = Except.ok r) ∧
      macroResolve "$$$FOO".toList ["x FOO".toList] = Except.error Err.indexError :=
  ⟨macro_lookup_conditional_totality.1 _ _ (by decide),
   macro_lookup_conditional_totality.2⟩

theorem get?_some_lt {α : Type} {l : List α} {n : Nat} {a : α}
    (h : l.get? n = some a) : n < l.length := by
  by_contra hn
  rw [List.get?_eq_none.mpr (by omega)] at h
  cases h

/-- C7: a parameter that is neither named nor positionally supplied and whose
declared default literal is the two-character sentinel `""` binds the empty
string, never `None`. -/
theorem empty_sentinel_binds_empty_string
    (kwupper : List (Str × Value)) (args : List Value) (macroLines : List Str)
    (i : Nat) (token t : Str)
    (hstrip : stripMark token = Except.ok t)
    (hnamed : dictFind kwupper (paramNameOf t) = Option.none)
    (hpos : args.length ≤ i - 2)
    (hdflt : (pySplit '=' t).get? 1 = some ("\"\"".toList)) :
    bindArgument kwupper args macroLines i token = Except.ok (Value.str []) := by
  have hlen : 1 < (pySplit '=' t).length := get?_some_lt hdflt
  simp only [bindArgument, hstrip, exceptBind_ok, hnamed]
  rw [if_neg (by omega : ¬ args.length > i - 2), if_pos (by omega : (pySplit '=' t).length > 1)]
  simp only [pyIdx_ok hdflt, exceptBind_ok]
  simp
  rfl

theorem empty_sentinel_binds_empty_string_witness :
    bindArgument [] [] [] 2 ("p:%String=\"\"".toList) = Except.ok (Value.str []) :=
  empty_sentinel_binds_empty_string [] [] [] 2 ("p:%String=\"\"".toList)
    ("p:%String=\"\"".toList) (by decide) (by decide) (by decide) (by decide)

/-- C4 (amended): when the declared default is a `$$$` token and the macro
scan is exhausted (the resolver returns `None`), the binder silently binds
Python `None` as the argument value — no `UnresolvedDefault` error exists. -/
theorem macro_none_binds_value_none
    (kwupper : List (Str × Value)) (args : List Value) (macroLines : List Str)
    (i : Nat) (token t dflt : Str)
    (hstrip : stripMark token = Except.ok t)
    (hnamed : dictFind kwupper (paramNameOf t) = Option.none)
    (hpos : args.length ≤ i - 2)
    (hdflt : (pySplit '=' t).get? 1 = some dflt)
    (hsent : dflt ≠ "\"\"".toList)
    (hsym : dflt.take 3 = "$$$".toList)
    (hm : macroResolve dflt macroLines = Except.ok Option.none) :
    bindArgument kwupper args macroLines i token = Except.ok Value.none := by
  have hlen : 1 < (pySplit '=' t).length := get?_some_lt hdflt
  simp only [bindArgument, hstrip, exceptBind_ok, hnamed]
  rw [if_neg (by omega : ¬ args.length > i - 2), if_pos (by omega : (pySplit '=' t).length > 1)]
  simp only [pyIdx_ok hdflt, exceptBind_ok, if_neg hsent, if_pos hsym, hm]
  rfl

theorem macro_none_binds_value_none_witness :
    bindArgument [] [] ["junk".toList] 2 ("p=$$$FOO".toList) = Except.ok Value.none :=
  macro_none_binds_value_none [] [] ["junk".toList] 2 ("p=$$$FOO".toList)
    ("p=$$$FOO".toList) ("$$$FOO".toList)
    (by decide) (by decide) (by decide) (by decide) (by decide) (by decide) (by decide)

/-- C4 (counterexample): a dispatch with an exhausted macro default completes
normally and invokes the remote method with `None` in the positional vector,
rather than failing with any `UnresolvedDefault` error. -/
theorem unresolved_macro_binds_none_cex :
    iknow_query ⟨"a:x".toList, "r,d,p=$$$FOO".toList, true, [], ["junk".toList]⟩ [] [] =
      (Except.ok [], [Effect.remoteCall [Value.none], Effect.kill]) := by decide

/-- C5 (counterexample): when the remote call raises, `iknow_query` propagates
the failure without ever running the `kill` purge — the purge is a plain
trailing statement, not a guaranteed-release block. -/
theorem remote_failure_skips_kill_cex :
    iknow_query ⟨"a:x".toList, "r,d".toList, false, [], []⟩ [] [] =
      (Except.error Err.remoteCallFailed, [Effect.remoteCall []]) ∧
    Effect.kill ∉ [Effect.remoteCall ([] : List Value)] := by decide

theorem iknow_query_type_error {env : Env} {args : List Value}
    {kwargs : List (Str × Value)} {e : Err}
    (hT : resolveReturnTypes env.schemaDefault = Except.error e) :
    iknow_query env args kwargs = (Except.error e, []) := by
  simp only [iknow_query, hT]

theorem iknow_query_bind_error {env : Env} {args : List Value}
    {kwargs : List (Str × Value)} {ts : List Str} {e : Err}
    (hT : resolveReturnTypes env.schemaDefault = Except.ok ts)
    (hB : bindAll (buildKwupper kwargs) args env.macroLines
        (pySplit ',' env.formalSpec) = Except.error e) :
    iknow_query env args kwargs = (Except.error e, []) := by
  simp only [iknow_query, hT, hB]

theorem iknow_query_remote_fail {env : Env} {args : List Value}
    {kwargs : List (Str × Value)} {ts : List Str} {fa : List Value}
    (hT : resolveReturnTypes env.schemaDefault = Except.ok ts)
    (hB : bindAll (buildKwupper kwargs) args env.macroLines
        (pySplit ',' env.formalSpec) = Except.ok fa)
    (hr : env.remoteOk = false) :
    iknow_query env args kwargs =
      (Except.error Err.remoteCallFailed, [Effect.remoteCall fa]) := by
  simp only [iknow_query, hT, hB, hr, Bool.false_eq_true, if_false]

theorem iknow_query_remote_ok {env : Env} {args : List Value}
    {kwargs : List (Str × Value)} {ts : List Str} {fa : List Value}
    (hT : resolveReturnTypes env.schemaDefault = Except.ok ts)
    (hB : bindAll (buildKwupper kwargs) args env.macroLines
        (pySplit ',' env.formalSpec) = Except.ok fa)
    (hr : env.remoteOk = true) :
    iknow_query env args kwargs =
      (Except.ok (env.channelEntries.map
          (buildRow (resolveReturnCols env.schemaDefault))),
       [Effect.remoteCall fa, Effect.kill]) := by
  simp only [iknow_query, hT, hB, hr, if_true]

/-- C5 (amended): the purge runs exactly on the normal path — `kill` appears
in the effect trace of a dispatch if and only if the dispatch returned a
result; on every raising path (schema error, binding error, failed remote
call) the channel is left unpurged. -/
theorem kill_iff_dispatch_ok (env : Env) (args : List Value)
    (kwargs : List (Str × Value)) :
    Effect.kill ∈ (iknow_query env args kwargs).2 ↔
      ∃ rows, (iknow_query env args kwargs).1 = Except.ok rows := by
  cases hT : resolveReturnTypes env.schemaDefault with
  | error e =>
    rw [iknow_query_type_error hT]
    constructor
    · intro h; exact absurd h (List.not_mem_nil _)
    · rintro ⟨rows, h⟩; cases h
  | ok ts =>
    cases hB : bindAll (buildKwupper kwargs) args env.macroLines
        (pySplit ',' env.formalSpec) with
    | error e =>
      rw [iknow_query_bind_error hT hB]
      constructor
      · intro h; exact absurd h (List.not_mem_nil _)
      · rintro ⟨rows, h⟩; cases h
    | ok fa =>
      cases hr : env.remoteOk with
      | false =>
        rw [iknow_query_remote_fail hT hB hr]
        constructor
        · intro h
          have h' := List.mem_singleton.mp h
          cases h'
        · rintro ⟨rows, h⟩; cases h
      | true =>
        rw [iknow_query_remote_ok hT hB hr]
        constructor
        · intro _; exact ⟨_, rfl⟩
        · intro _; exact List.mem_cons_of_mem _ (List.mem_singleton.mpr rfl)

theorem bindArgument_take_args (kwupper : List (Str × Value)) (macroLines : List Str)
    (args : List Value) (n i : Nat) (token : Str) (h : i - 2 < n) :
    bindArgument kwupper (args.take n) macroLines i token =
      bindArgument kwupper args macroLines i token := by
  cases hs : stripMark token with
  | error e => simp [bindArgument, hs, exceptBind_error]
  | ok t =>
    simp only [bindArgument, hs, exceptBind_ok]
    cases dictFind kwupper (paramNameOf t) with
    | some v => rfl
    | none =>
      by_cases hl : args.length > i - 2
      · have hl' : (args.take n).length > i - 2 := by
          rw [List.length_take]; omega
        rw [if_pos hl', if_pos hl]
        unfold pyIdx
        rw [List.get?_take h]
      · have hl' : ¬ (args.take n).length > i - 2 := by
          rw [List.length_take]; omega
        rw [if_neg hl', if_neg hl]

theorem bindAllGo_take_args (kwupper : List (Str × Value)) (macroLines : List Str)
    (args : List Value) (n : Nat) :
    ∀ (l : List Str) (j : Nat), j - 2 + l.length ≤ n →
      bindAllGo kwupper (args.take n) macroLines j l =
        bindAllGo kwupper args macroLines j l := by
  intro l
  induction l with
  | nil => intro j _; rfl
  | cons token rest ih =>
    intro j h
    rw [List.length_cons] at h
    simp only [bindAllGo]
    rw [bindArgument_take_args kwupper macroLines args n j token (by omega),
      ih (j + 1) (by omega)]

theorem bindAll_take_eq (kwupper : List (Str × Value)) (args : List Value)
    (macroLines : List Str) (raw : List Str) :
    bindAll kwupper (args.take (raw.length - 2)) macroLines raw =
      bindAll kwupper args macroLines raw := by
  unfold bindAll
  exact bindAllGo_take_args kwupper macroLines args (raw.length - 2) (raw.drop 2) 2
    (by rw [List.length_drop]; omega)

/-- C3 (amended): caller-supplied positional arguments beyond the declared
parameter count (after the two reserved leading slots) are silently ignored —
the whole dispatch, result and effects included, is unchanged when the
positional list is truncated to the declared count; no `TooManyArguments`
error exists and the remote method is still invoked. -/
theorem extra_positional_args_ignored (env : Env) (args : List Value)
    (kwargs : List (Str × Value)) :
    iknow_query env args kwargs =
      iknow_query env (args.take ((pySplit ',' env.formalSpec).length - 2)) kwargs := by
  simp only [iknow_query, bindAll_take_eq]

/-- C3 (counterexample): three positional arguments against a parameter spec
with only two remaining slots make the dispatch complete normally and invoke
the remote method with the two bound values — it does not fail. -/
theorem three_positionals_no_error_cex :
    iknow_query ⟨"a:x".toList, "r,d,p,q".toList, true, [], []⟩
        [Value.int 1, Value.int 2, Value.int 3] [] =
      (Except.ok [], [Effect.remoteCall [Value.int 1, Value.int 2], Effect.kill]) := by
  decide

theorem bindAllGo_get (kwupper : List (Str × Value)) (args : List Value)
    (macroLines : List Str) :
    ∀ (l : List Str) (j idx : Nat) (vs : List Value) (token : Str),
      bindAllGo kwupper args macroLines j l = Except.ok vs →
      l.get? idx = some token →
      ∃ v, vs.get? idx = some v ∧
        bindArgument kwupper args macroLines (j + idx) token = Except.ok v := by
  intro l
  induction l with
  | nil => intro j idx vs token _ htok; cases htok
  | cons a rest ih =>
    intro j idx vs token hok htok
    cases hb : bindArgument kwupper args macroLines j a with
    | error e => rw [bindAllGo, hb, exceptBind_error] at hok; cases hok
    | ok v0 =>
      cases hrest : bindAllGo kwupper args macroLines (j + 1) rest with
      | error e =>
        rw [bindAllGo, hb, exceptBind_ok, hrest, exceptBind_error] at hok
        cases hok
      | ok vs1 =>
        rw [bindAllGo, hb, exceptBind_ok, hrest, exceptBind_ok] at hok
        have hvs : vs = v0 :: vs1 := (Except.ok.inj hok).symm
        subst hvs
        cases idx with
        | zero =>
          have : a = token := Option.some.inj htok
          subst this
          exact ⟨v0, rfl, by rw [Nat.add_zero]; exact hb⟩
        | succ k =>
          obtain ⟨v, hv, hbind⟩ := ih (j + 1) k vs1 token hrest htok
          refine ⟨v, hv, ?_⟩
          have : j + 1 + k = j + (k + 1) := by omega
          rw [← this]
          exact hbind

/-- C2: a caller-supplied named argument whose name matches the declared
parameter name case-insensitively determines that parameter's slot in the
positional vector the dispatch sends to the remote method, regardless of
any positional argument or declared default for that slot. -/
theorem named_arg_overrides_positional (env : Env) (args : List Value)
    (kwargs : List (Str × Value)) (res : Except Err (List (List (Str × Value))))
    (fullArgs : List Value) (tr : List Effect)
    (i : Nat) (token t : Str) (v : Value)
    (hq : iknow_query env args kwargs = (res, Effect.remoteCall fullArgs :: tr))
    (hi : 2 ≤ i)
    (htok : (pySplit ',' env.formalSpec).get? i = some token)
    (hstrip : stripMark token = Except.ok t)
    (hnamed : dictFind (buildKwupper kwargs) (paramNameOf t) = some v) :
    fullArgs.get? (i - 2) = some v := by
  -- recover the bound vector from the effect trace
  have hB : bindAll (buildKwupper kwargs) args env.macroLines
      (pySplit ',' env.formalSpec) = Except.ok fullArgs := by
    cases hT : resolveReturnTypes env.schemaDefault with
    | error e => rw [iknow_query_type_error hT] at hq; cases (Prod.mk.inj hq).2
    | ok ts =>
      cases hB' : bindAll (buildKwupper kwargs) args env.macroLines
          (pySplit ',' env.formalSpec) with
      | error e => rw [iknow_query_bind_error hT hB'] at hq; cases (Prod.mk.inj hq).2
      | ok fa =>
        cases hr : env.remoteOk with
        | false =>
          rw [iknow_query_remote_fail hT hB' hr] at hq
          have hfa : fa = fullArgs :=
            Effect.remoteCall.inj (List.cons.inj (Prod.mk.inj hq).2).1
          exact congrArg Except.ok hfa
        | true =>
          rw [iknow_query_remote_ok hT hB' hr] at hq
          have hfa : fa = fullArgs :=
            Effect.remoteCall.inj (List.cons.inj (Prod.mk.inj hq).2).1
          exact congrArg Except.ok hfa
  have hdrop : ((pySplit ',' env.formalSpec).drop 2).get? (i - 2) = some token := by
    rw [List.get?_drop]
    have : 2 + (i - 2) = i := by omega
    rw [this]
    exact htok
  obtain ⟨v', hv', hbind⟩ := bindAllGo_get (buildKwupper kwargs) args env.macroLines
    ((pySplit ',' env.formalSpec).drop 2) 2 (i - 2) fullArgs token hB hdrop
  have hi2 : 2 + (i - 2) = i := by omega
  rw [hi2] at hbind
  -- compute the binder on a named hit
  rw [bindArgument, hstrip] at hbind
  rw [exceptBind_ok] at hbind
  rw [hnamed] at hbind
  have : v = v' := Except.ok.inj hbind
  rw [hv', ← this]

theorem named_arg_overrides_positional_witness :
    [Value.str "zzz".toList].get? (2 - 2) = some (Value.str "zzz".toList) :=
  named_arg_overrides_positional
    ⟨"a:x".toList, "r,d,p:%String=abc".toList, true, [], []⟩
    [Value.str "pos".toList] [("p".toList, Value.str "zzz".toList)]
    (Except.ok []) [Value.str "zzz".toList] [Effect.kill]
    2 ("p:%String=abc".toList) ("p:%String=abc".toList) (Value.str "zzz".toList)
    (by decide) (by decide) (by decide) (by decide) (by decide)

theorem rowInsert_fresh (row : List (Str × Value)) (k : Str) (v : Value)
    (h : row.any (fun kv => kv.1 = k) = false) :
    rowInsert row k v = row ++ [(k, v)] := by
  simp only [rowInsert, h]
  rfl

theorem buildRowGo_eq_spec (fields : List Value) :
    ∀ (cols : List Str) (i : Nat) (row : List (Str × Value)),
      cols.Nodup →
      (∀ c ∈ cols, ∀ kv ∈ row, kv.1 ≠ c) →
      buildRowGo fields row i cols = row ++ rowSpecGo fields i cols := by
  intro cols
  induction cols with
  | nil => intro i row _ _; simp [buildRowGo, rowSpecGo]
  | cons c rest ih =>
    intro i row hnd hfresh
    have hany : row.any (fun kv => kv.1 = c) = false := by
      rw [List.any_eq_false]
      intro kv hkv
      simp only [decide_eq_true_eq]
      exact hfresh c (List.mem_cons_self _ _) kv hkv
    have hfresh' : ∀ c' ∈ rest, ∀ kv ∈ row ++ [(c, irisListGet fields (i + 1))], kv.1 ≠ c' := by
      intro c' hc' kv hkv
      rcases List.mem_append.mp hkv with hkv' | hkv'
      · exact hfresh c' (List.mem_cons_of_mem _ hc') kv hkv'
      · have : kv = (c, irisListGet fields (i + 1)) := List.mem_singleton.mp hkv'
        subst this
        intro hcc
        have hcc' : c = c' := hcc
        exact (List.nodup_cons.mp hnd).1 (hcc' ▸ hc')
    calc buildRowGo fields row i (c :: rest)
        = buildRowGo fields (rowInsert row c (irisListGet fields (i + 1))) (i + 1) rest := rfl
      _ = buildRowGo fields (row ++ [(c, irisListGet fields (i + 1))]) (i + 1) rest := by
          rw [rowInsert_fresh row c _ hany]
      _ = (row ++ [(c, irisListGet fields (i + 1))]) ++ rowSpecGo fields (i + 1) rest :=
          ih (i + 1) _ (List.nodup_cons.mp hnd).2 hfresh'
      _ = row ++ rowSpecGo fields i (c :: rest) := by
          rw [List.append_assoc]
          rfl

theorem rowSpecGo_map_fst (fields : List Value) :
    ∀ (cols : List Str) (i : Nat), (rowSpecGo fields i cols).map Prod.fst = cols := by
  intro cols
  induction cols with
  | nil => intro i; rfl
  | cons c rest ih => intro i; simp [rowSpecGo, ih]

theorem rowSpecGo_get? (fields : List Value) :
    ∀ (cols : List Str) (i j : Nat),
      (rowSpecGo fields i cols).get? j =
        (cols.get? j).map (fun c => (c, irisListGet fields (i + j + 1))) := by
  intro cols
  induction cols with
  | nil => intro i j; rfl
  | cons c rest ih =>
    intro i j
    cases j with
    | zero => rfl
    | succ k =>
      simp only [rowSpecGo, List.get?_cons_succ, ih (i + 1) k]
      have : i + 1 + k = i + (k + 1) := by omega
      rw [this]

theorem buildRow_eq_spec (cols : List Str) (fields : List Value) (hnd : cols.Nodup) :
    buildRow cols fields = rowSpecGo fields 0 cols := by
  rw [buildRow, buildRowGo_eq_spec fields cols 0 [] hnd (by intro c _ kv hkv; cases hkv)]
  rfl

theorem buildRow_keys (cols : List Str) (fields : List Value) (hnd : cols.Nodup) :
    (buildRow cols fields).map Prod.fst = cols := by
  rw [buildRow_eq_spec cols fields hnd, rowSpecGo_map_fst]

/-- C1 (amended): whenever a dispatch completes normally and the resolved
column names are pairwise distinct, each returned row's keys are exactly the
resolved column names in resolved order; duplicate resolved names would
collapse into a single key (Python dict assignment), which is the only
exception. -/
theorem row_keys_eq_return_cols (env : Env) (args : List Value)
    (kwargs : List (Str × Value)) (rows : List (List (Str × Value)))
    (row : List (Str × Value))
    (hok : (iknow_query env args kwargs).1 = Except.ok rows)
    (hnd : (resolveReturnCols env.schemaDefault).Nodup)
    (hrow : row ∈ rows) :
    row.map Prod.fst = resolveReturnCols env.schemaDefault := by
  cases hT : resolveReturnTypes env.schemaDefault with
  | error e => rw [iknow_query_type_error hT] at hok; cases hok
  | ok ts =>
    cases hB : bindAll (buildKwupper kwargs) args env.macroLines
        (pySplit ',' env.formalSpec) with
    | error e => rw [iknow_query_bind_error hT hB] at hok; cases hok
    | ok fa =>
      cases hr : env.remoteOk with
      | false => rw [iknow_query_remote_fail hT hB hr] at hok; cases hok
      | true =>
        rw [iknow_query_remote_ok hT hB hr] at hok
        have hrows : env.channelEntries.map
            (buildRow (resolveReturnCols env.schemaDefault)) = rows :=
          Except.ok.inj hok
        rw [← hrows] at hrow
        obtain ⟨fields, _, hfw⟩ := List.mem_map.mp hrow
        rw [← hfw]
        exact buildRow_keys _ fields hnd

theorem row_keys_eq_return_cols_witness :
    [("a".toList, Value.str "u".toList), ("b".toList, Value.str "v".toList)].map
        Prod.fst = resolveReturnCols "a:x,b:y".toList :=
  row_keys_eq_return_cols
    ⟨"a:x,b:y".toList, "r,d".toList, true,
      [[Value.str "u".toList, Value.str "v".toList]], []⟩
    [] [] [[("a".toList, Value.str "u".toList), ("b".toList, Value.str "v".toList)]]
    [("a".toList, Value.str "u".toList), ("b".toList, Value.str "v".toList)]
    (by decide) (by decide) (by decide)

/-- C1 (counterexample): with the result-schema metadata `a:x,a:y` the
dispatch completes normally, but the returned row has the single key `a`
(the second assignment overwrote the first), not the two resolved column
names — its key list differs from the resolved name list. -/
theorem dup_column_names_collapse_cex :
    (iknow_query ⟨"a:x,a:y".toList, "r,d".toList, true,
        [[Value.str "u".toList, Value.str "v".toList]], []⟩ [] []).1 =
      Except.ok [[("a".toList, Value.str "v".toList)]] ∧
    resolveReturnCols "a:x,a:y".toList = ["a".toList, "a".toList] ∧
    [("a".toList, Value.str "v".toList)].map Prod.fst ≠ ["a".toList, "a".toList] := by
  decide

/-- C6 (amended): the row loop iterates over every resolved column, so for
pairwise-distinct column names the materialized row always has exactly one
pair per column descriptor; when the packed payload has fewer fields than the
schema has columns, the trailing columns are present and bound to `None`
(the external list accessor's out-of-range result), not omitted, and no
error is raised. -/
theorem short_payload_trailing_none (cols : List Str) (fields : List Value)
    (hnd : cols.Nodup) :
    (buildRow cols fields).length = cols.length ∧
    ∀ j, fields.length ≤ j →
      (buildRow cols fields).get? j = (cols.get? j).map (fun c => (c, Value.none)) := by
  rw [buildRow_eq_spec cols fields hnd]
  constructor
  · have := congrArg List.length (rowSpecGo_map_fst fields cols 0)
    rw [List.length_map] at this
    exact this
  · intro j hj
    rw [rowSpecGo_get? fields cols 0 j]
    have hget : irisListGet fields (0 + j + 1) = Value.none := by
      unfold irisListGet
      have : 0 + j + 1 - 1 = j := by omega
      rw [this, List.get?_eq_none.mpr hj]
      rfl
    rw [hget]

theorem short_payload_trailing_none_witness :
    (buildRow ["a".toList, "b".toList] [Value.str "x".toList]).length = 2 ∧
    ∀ j, 1 ≤ j →
      (buildRow ["a".toList, "b".toList] [Value.str "x".toList]).get? j =
        (["a".toList, "b".toList].get? j).map (fun c => (c, Value.none)) := by
  have h := short_payload_trailing_none ["a".toList, "b".toList]
    [Value.str "x".toList] (by decide)
  exact ⟨h.1, h.2⟩

/-- C6 (counterexample): a payload with one field against a two-column schema
produces a row with two pairs — the second column is present with value
`None` — not the `min(1, 2) = 1` pairs the claim requires. -/
theorem short_payload_row_has_all_columns_cex :
    (iknow_query ⟨"a:x,b:y".toList, "r,d".toList, true,
        [[Value.str "x".toList]], []⟩ [] []).1 =
      Except.ok [[("a".toList, Value.str "x".toList), ("b".toList, Value.none)]] ∧
    ¬ ([("a".toList, Value.str "x".toList), ("b".toList, Value.none)].length
        = min 1 2) := by
  decide

theorem bindArgument_congr_kw (kw kw' : List (Str × Value)) (args : List Value)
    (macroLines : List Str) (i : Nat) (token : Str)
    (h : ∀ t, stripMark token = Except.ok t →
      dictFind kw' (paramNameOf t) = dictFind kw (paramNameOf t)) :
    bindArgument kw' args macroLines i token =
      bindArgument kw args macroLines i token := by
  cases hs : stripMark token with
  | error e => simp [bindArgument, hs, exceptBind_error]
  | ok t => simp only [bindArgument, hs, exceptBind_ok, h t hs]

theorem bindAllGo_congr (kw kw' : List (Str × Value)) (args : List Value)
    (macroLines : List Str) :
    ∀ (l : List Str) (j : Nat),
      (∀ p token, l.get? p = some token →
        bindArgument kw' args macroLines (j + p) token =
          bindArgument kw args macroLines (j + p) token) →
      bindAllGo kw' args macroLines j l = bindAllGo kw args macroLines j l := by
  intro l
  induction l with
  | nil => intro j _; rfl
  | cons a rest ih =>
    intro j h
    have h0 := h 0 a rfl
    rw [Nat.add_zero] at h0
    have hrest : ∀ p token, rest.get? p = some token →
        bindArgument kw' args macroLines (j + 1 + p) token =
          bindArgument kw args macroLines (j + 1 + p) token := by
      intro p token hp
      have := h (p + 1) token hp
      rwa [show j + (p + 1) = j + 1 + p by omega] at this
    simp only [bindAllGo]
    rw [h0, ih (j + 1) hrest]

/-- C8 (amended): for a parameter whose declared default is a plain literal
(neither the empty-string sentinel `""` nor a `$$$` macro token), explicitly
binding it by name to the string value of that literal produces exactly the
same full positional vector as omitting it and letting it fall through to the
default — provided no other declared parameter shares its (case-insensitive)
name.  For sentinel or macro defaults the round-trip fails, because the
fall-through rewrites the literal before binding. -/
theorem plain_literal_default_roundtrip
    (kw kw' : List (Str × Value)) (args : List Value) (macroLines : List Str)
    (raw : List Str) (i : Nat) (token t dflt : Str)
    (htok : raw.get? i = some token) (hi : 2 ≤ i)
    (hstrip : stripMark token = Except.ok t)
    (hdflt : (pySplit '=' t).get? 1 = some dflt)
    (hsent : dflt ≠ "\"\"".toList)
    (hsym : dflt.take 3 ≠ "$$$".toList)
    (hkw : dictFind kw (paramNameOf t) = Option.none)
    (hkw' : dictFind kw' (paramNameOf t) = some (Value.str dflt))
    (hother : ∀ nm, nm ≠ paramNameOf t → dictFind kw' nm = dictFind kw nm)
    (hpos : args.length ≤ i - 2)
    (huniq : ∀ j, 2 ≤ j → j < raw.length → j ≠ i →
      nameAt raw j ≠ some (paramNameOf t)) :
    bindAll kw' args macroLines raw = bindAll kw args macroLines raw := by
  unfold bindAll
  apply bindAllGo_congr
  intro p token' hp
  have hp' : raw.get? (2 + p) = some token' := by
    rw [← List.get?_drop]; exact hp
  by_cases hpi : 2 + p = i
  · have htt : token' = token := by
      rw [hpi] at hp'
      exact Option.some.inj (hp'.symm.trans htok)
    subst htt
    rw [hpi]
    have hlen : 1 < (pySplit '=' t).length := get?_some_lt hdflt
    have hL : bindArgument kw' args macroLines i token' = Except.ok (Value.str dflt) := by
      simp only [bindArgument, hstrip, exceptBind_ok, hkw']
      rfl
    have hR : bindArgument kw args macroLines i token' = Except.ok (Value.str dflt) := by
      simp only [bindArgument, hstrip, exceptBind_ok, hkw]
      rw [if_neg (by omega : ¬ args.length > i - 2),
        if_pos (by omega : (pySplit '=' t).length > 1)]
      simp only [pyIdx_ok hdflt, exceptBind_ok, if_neg hsent, if_neg hsym]
      rfl
    rw [hL, hR]
  · apply bindArgument_congr_kw
    intro t' hs'
    apply hother
    intro hne
    have hj2 : 2 ≤ 2 + p := by omega
    have hjlt : 2 + p < raw.length := get?_some_lt hp'
    have hgd : raw.getD (2 + p) [] = token' := by
      rw [List.getD_eq_get?, hp']
      rfl
    have hna : nameAt raw (2 + p) = some (paramNameOf t') := by
      unfold nameAt
      rw [hgd, hs']
    exact huniq (2 + p) hj2 hjlt hpi (hne ▸ hna)

theorem plain_literal_default_roundtrip_witness :
    bindAll [("P".toList, Value.str "abc".toList)] [] []
        (pySplit ',' "r,d,p:%String=abc".toList) =
      bindAll [] [] [] (pySplit ',' "r,d,p:%String=abc".toList) :=
  plain_literal_default_roundtrip [] [("P".toList, Value.str "abc".toList)] [] []
    (pySplit ',' "r,d,p:%String=abc".toList) 2
    ("p:%String=abc".toList) ("p:%String=abc".toList) ("abc".toList)
    (by decide) (by decide) (by decide) (by decide) (by decide) (by decide)
    (by decide) (by decide)
    (by
      intro nm hne
      have hP : decide ((['P'] : Str) = nm) = false := by
        apply decide_eq_false
        intro h
        exact hne (h.symm.trans (by decide : ((['P'] : Str)) =
          paramNameOf ("p:%String=abc".toList)))
      simp [dictFind, List.find?, hP])
    (by decide)
    (by
      intro j h2 h3 hne
      rw [(by decide : (pySplit ',' "r,d,p:%String=abc".toList).length = 3)] at h3
      exact absurd rfl (by omega : j ≠ j))

/-- C8 (counterexample): for the empty-string-sentinel default `""`,
explicitly binding the parameter by name to the default literal (the
two-character string `""`) yields a different positional vector than letting
it fall through — the fall-through binds the empty string instead. -/
theorem sentinel_default_roundtrip_fails_cex :
    bindAll (buildKwupper [("p".toList, Value.str "\"\"".toList)]) [] []
        (pySplit ',' "r,d,p:%String=\"\"".toList) =
      Except.ok [Value.str "\"\"".toList] ∧
    bindAll (buildKwupper []) [] [] (pySplit ',' "r,d,p:%String=\"\"".toList) =
      Except.ok [Value.str []] ∧
    (Value.str "\"\"".toList) ≠ Value.str [] := by
  decide
